import Mathlib

/-!
Verification of the reviewer assignment and reassignment engine of the
avito-service repository.

The Go code is shallowly embedded: the PostgreSQL tables become lists held
in a `Store` record, each repository method becomes a function on `Store`,
and each service method becomes a function composing the repository
functions exactly as the Go code does.  Functions that may mutate the
database return a pair `(Except DomainError α) × Store`; an error result is
paired with the unchanged input store, which models the transaction
rollback / early-return discipline of the Go code.  The pseudo-random
shuffle performed by `getRandomReviewers` (Go shuffles the slice in place
with a time-seeded source) is modelled by an explicit `shuffle` parameter;
theorems that need it assume only that the shuffle permutes its input,
which is the sole guarantee the Go `rand.Shuffle` gives.
-/

namespace Avito

/-- UUIDs are opaque identifiers; `uuid.Nil` is modelled as `0`. -/
abbrev UUID := Nat

/-- The sentinel errors of `internal/domain` (each `errors.New` value is
distinct, so they form an inductive type); `internal e` stands for any
wrapped infrastructure error. -/
inductive DomainError where
  | errNotFound
  | errOneOfParametersNil
  | errUserIDNil
  | errTeamExists
  | errPRExists
  | errPRNotExist
  | errAuthorCannotDelete
  | errNoCandidate
  | errPRMerged
  | errUserNotAssigned
  | errAuthorIsInactive
  | internal (msg : String)
deriving DecidableEq, Repr

/-- `domain.StatusPR`: the two PR statuses. -/
inductive StatusPR where
  | OPEN
  | MERGED
deriving DecidableEq, Repr

/-- `domain.User`. -/
structure User where
  ID : UUID
  Username : String
  IsActive : Bool
  TeamName : String
deriving DecidableEq, Repr

/-- `domain.Team`. -/
structure Team where
  Name : String
  Members : List User
deriving DecidableEq, Repr

/-- `domain.PullRequest` (reviewer set is carried as a list, as in Go). -/
structure PullRequest where
  ID : String
  Name : String
  Status : StatusPR
  AuthorID : UUID
  AssignedReviewers : List UUID
  CreatedAt : Nat
  MergedAt : Option Nat
deriving DecidableEq, Repr

/-- `domain.Reassignment`. -/
structure Reassignment where
  PullRequestID : String
  OldUserID : UUID
  NewUserID : UUID
deriving DecidableEq, Repr

/-- `domain.UserReviewStat`. -/
structure UserReviewStat where
  UserID : UUID
  Username : String
  IsActive : Bool
  ReviewCount : Nat
deriving DecidableEq, Repr

/-- A row of the `pull_requests` table (reviewers live in their own table). -/
structure PRRow where
  id : String
  name : String
  status : StatusPR
  authorID : UUID
  createdAt : Nat
  mergedAt : Option Nat
deriving DecidableEq, Repr

/-- The database: the `teams`, `users`, `pull_requests` and
`pull_request_reviewers` tables. -/
structure Store where
  teams : List String
  users : List User
  prRows : List PRRow
  reviewerLinks : List (String × UUID)
deriving DecidableEq, Repr

/-- The empty database (state after migrations). -/
def emptyStore : Store := ⟨[], [], [], []⟩

/-! ## Repository layer (internal/repository/postgres) -/

/-- `UserRepository.GetUserByID`: `SELECT ... FROM users WHERE id = $1`. -/
def getUserByID (st : Store) (id : UUID) : Except DomainError User :=
  match st.users.find? (fun u => u.ID == id) with
  | some u => .ok u
  | none => .error .errNotFound

/-- `UserRepository.GetActiveTeamMembers`:
`SELECT ... FROM users WHERE team_name = $1 AND is_active = true AND id != ALL($2)`. -/
def getActiveTeamMembers (st : Store) (teamName : String) (excludeIDs : List UUID) : List User :=
  st.users.filter (fun u => decide (u.TeamName = teamName ∧ u.IsActive = true ∧ u.ID ∉ excludeIDs))

/-- `UserRepository.SaveUser`: `INSERT ... ON CONFLICT (id) DO UPDATE`. -/
def saveUserRepo (st : Store) (user : User) : Store :=
  if st.users.any (fun u => u.ID == user.ID) then
    { st with users := st.users.map (fun u => if u.ID == user.ID then user else u) }
  else
    { st with users := st.users ++ [user] }

/-- `UserRepository.SetIsActive`: `UPDATE users SET is_active = $1 WHERE id = $2`,
with `RowsAffected() == 0` reported as `ErrNotFound`. -/
def setIsActiveRepo (st : Store) (id : UUID) (isActive : Bool) :
    Except DomainError Unit × Store :=
  if st.users.any (fun u => u.ID == id) then
    let updated := st.users.map (fun u => if u.ID == id then { u with IsActive := isActive } else u)
    (.ok (), { st with users := updated })
  else
    (.error .errNotFound, st)

/-- `TeamRepository.ExistsTeam`: `SELECT EXISTS(SELECT name FROM teams WHERE name = $1)`. -/
def existsTeamRepo (st : Store) (name : String) : Bool :=
  st.teams.contains name

/-- `Store.CreateTeamWithMembersTx`: inserts the team row and then saves every
member inside one transaction, overwriting each member's `TeamName` with the
team's name before the insert (`member.TeamName = team.Name`).  A duplicate
team name violates the primary key and aborts the transaction. -/
def createTeamWithMembersTx (st : Store) (team : Team) : Except DomainError Unit × Store :=
  if st.teams.contains team.Name then
    (.error (.internal "duplicate team"), st)
  else
    let st1 : Store := { st with teams := st.teams ++ [team.Name] }
    (.ok (), team.Members.foldl
      (fun acc m => saveUserRepo acc { m with TeamName := team.Name }) st1)

/-- `PullRequestRepository.Exists`: `SELECT EXISTS(SELECT 1 FROM pull_requests WHERE id = $1)`. -/
def prExists (st : Store) (id : String) : Bool :=
  st.prRows.any (fun p => p.id == id)

/-- The reviewer ids stored for a PR:
`SELECT reviewer_id FROM pull_request_reviewers WHERE pull_request_id = $1`. -/
def reviewersOf (st : Store) (id : String) : List UUID :=
  (st.reviewerLinks.filter (fun l => l.1 == id)).map (fun l => l.2)

/-- `PullRequestRepository.GetPRByID`: reads the PR row and its reviewer rows. -/
def getPRByID (st : Store) (id : String) : Except DomainError PullRequest :=
  match st.prRows.find? (fun p => p.id == id) with
  | none => .error .errNotFound
  | some row =>
      .ok ⟨row.id, row.name, row.status, row.authorID, reviewersOf st id,
           row.createdAt, row.mergedAt⟩

/-- `PullRequestRepository.Create`: inserts the PR row and bulk-copies its
reviewer rows in one transaction; a duplicate id violates the primary key. -/
def createPRRepo (st : Store) (pr : PullRequest) : Except DomainError Unit × Store :=
  if st.prRows.any (fun p => p.id == pr.ID) then
    (.error (.internal "duplicate pull request"), st)
  else
    (.ok (), { st with
        prRows := st.prRows ++ [⟨pr.ID, pr.Name, pr.Status, pr.AuthorID, pr.CreatedAt, pr.MergedAt⟩],
        reviewerLinks := st.reviewerLinks ++ pr.AssignedReviewers.map (fun r => (pr.ID, r)) })

/-- `PullRequestRepository.ReassignReviewer`: inside one transaction, delete
the `(pull_request_id, reviewer_id)` row of the old reviewer; if the delete
affected zero rows, roll back with `ErrUserNotAssigned`; only otherwise
insert the new reviewer's row and commit. -/
def reassignReviewerRepo (st : Store) (r : Reassignment) : Except DomainError Unit × Store :=
  let remaining := st.reviewerLinks.filter
      (fun l => !(l.1 == r.PullRequestID && l.2 == r.OldUserID))
  if remaining.length == st.reviewerLinks.length then
    (.error .errUserNotAssigned, st)
  else
    (.ok (), { st with reviewerLinks := remaining ++ [(r.PullRequestID, r.NewUserID)] })

/-- `PullRequestRepository.SetMerge`:
`UPDATE pull_requests SET status = MERGED, merged_at = NOW() WHERE id = $2`,
with `RowsAffected() == 0` reported as `ErrNotFound`. -/
def setMergeRepo (st : Store) (id : String) (now : Nat) : Except DomainError Unit × Store :=
  if st.prRows.any (fun p => p.id == id) then
    let updated := st.prRows.map
      (fun p => if p.id == id then { p with status := .MERGED, mergedAt := some now } else p)
    (.ok (), { st with prRows := updated })
  else
    (.error .errNotFound, st)

/-- `StatsRepository.GetUserReviewStats` count for one user: the number of
`pull_request_reviewers` rows whose `reviewer_id` is the user (the grouped
subquery of the SQL, with `COALESCE(..., 0)` for users having no row). -/
def userReviewCount (st : Store) (id : UUID) : Nat :=
  (st.reviewerLinks.filter (fun l => l.2 == id)).length

/-- Descending order on review counts, as in `ORDER BY review_count DESC`. -/
def statDescOrder (a b : UserReviewStat) : Prop :=
  b.ReviewCount ≤ a.ReviewCount

instance : DecidableRel statDescOrder :=
  fun a b => Nat.decLe b.ReviewCount a.ReviewCount

instance : IsTotal UserReviewStat statDescOrder :=
  ⟨fun a b => Nat.le_total b.ReviewCount a.ReviewCount⟩

instance : IsTrans UserReviewStat statDescOrder :=
  ⟨fun _ _ _ hab hbc => Nat.le_trans hbc hab⟩

/-- `StatsRepository.GetUserReviewStats`: one row per user (LEFT JOIN), the
count coalesced to zero, ordered by count descending. -/
def getUserReviewStats (st : Store) : List UserReviewStat :=
  List.insertionSort statDescOrder
    (st.users.map (fun u => ⟨u.ID, u.Username, u.IsActive, userReviewCount st u.ID⟩))

/-- Spec-side characterization for §4.5: the number of pull requests,
regardless of status, whose current reviewer set contains the user.  The
SQL instead counts `pull_request_reviewers` rows per reviewer
(`userReviewCount`); the refinement theorem relates the two. -/
def numPRsReviewedBy (st : Store) (uid : UUID) : Nat :=
  (st.prRows.filter (fun p => decide (uid ∈ reviewersOf st p.id))).length

/-! ## Candidate selector and services (internal/service) -/

/-- `countReviewers` of pullrequest_service.go. -/
def countReviewers : Nat := 2

/-- `countReassignReviewer` of pullrequest_service.go. -/
def countReassignReviewer : Nat := 1

/-- A shuffle is admissible when it permutes its input, which is all Go's
`rand.Shuffle` guarantees about the time-seeded in-place shuffle. -/
def shuffleOK (shuffle : List User → List User) : Prop :=
  ∀ l : List User, (shuffle l).Perm l

/-- `PullRequestService.getRandomReviewers`: on a non-empty candidate slice,
shuffle it in place, then take the ids of the first `min count len` entries.
The second component is the state of the caller's slice after the call
(the Go shuffle mutates the slice it is handed). -/
def getRandomReviewers (shuffle : List User → List User) (users : List User) (count : Nat) :
    List UUID × List User :=
  if users.length = 0 then
    ([], users)
  else
    let shuffled := shuffle users
    let numToAssign := min count shuffled.length
    ((shuffled.take numToAssign).map (fun u => u.ID), shuffled)

/-- `PullRequestService.CreatePR`. -/
def CreatePR (shuffle : List User → List User) (st : Store)
    (prID prName : String) (authorID : UUID) (now : Nat) :
    Except DomainError PullRequest × Store :=
  if prExists st prID then
    (.error .errPRExists, st)
  else
    match getUserByID st authorID with
    | .error e => (.error e, st)
    | .ok author =>
      if author.IsActive = false then
        (.error .errAuthorIsInactive, st)
      else
        let activeMembers := getActiveTeamMembers st author.TeamName [author.ID]
        let pullRequest : PullRequest :=
          ⟨prID, prName, .OPEN, authorID,
           (getRandomReviewers shuffle activeMembers countReviewers).1, now, none⟩
        match createPRRepo st pullRequest with
        | (.error e, st1) => (.error e, st1)
        | (.ok _, st1) => (.ok pullRequest, st1)

/-- `PullRequestService.ReassignmentReviewers`.  Note: when the PR id does
not exist the Go code returns `domain.ErrPRExists` (pullrequest_service.go
line 109), not `domain.ErrPRNotExist`. -/
def ReassignmentReviewers (shuffle : List User → List User) (st : Store)
    (prID : String) (oldUserID : UUID) :
    Except DomainError (PullRequest × UUID) × Store :=
  if prExists st prID = false then
    (.error .errPRExists, st)
  else
    match getPRByID st prID with
    | .error e => (.error e, st)
    | .ok pullRequest =>
      if pullRequest.Status = .MERGED then
        (.error .errPRMerged, st)
      else
        match getUserByID st pullRequest.AuthorID with
        | .error e => (.error e, st)
        | .ok author =>
          if author.ID == oldUserID then
            (.error .errAuthorCannotDelete, st)
          else
            let excludeIDs := pullRequest.AssignedReviewers ++ [author.ID]
            let candidates := getActiveTeamMembers st author.TeamName excludeIDs
            match (getRandomReviewers shuffle candidates countReassignReviewer).1 with
            | [] => (.error .errNoCandidate, st)
            | newReviewerID :: _ =>
              match reassignReviewerRepo st ⟨prID, oldUserID, newReviewerID⟩ with
              | (.error e, st1) => (.error e, st1)
              | (.ok _, st1) =>
                match getPRByID st1 prID with
                | .error e => (.error e, st1)
                | .ok updated => (.ok (updated, newReviewerID), st1)

/-- `PullRequestService.SetMerge`. -/
def SetMergeService (st : Store) (prID : String) (now : Nat) :
    Except DomainError PullRequest × Store :=
  if prExists st prID = false then
    (.error .errPRNotExist, st)
  else
    match setMergeRepo st prID now with
    | (.error e, st1) => (.error e, st1)
    | (.ok _, st1) =>
      match getPRByID st1 prID with
      | .error e => (.error e, st1)
      | .ok pullRequest => (.ok pullRequest, st1)

/-- `UserService.SaveUser`. -/
def saveUserService (st : Store) (user : User) : Except DomainError Unit × Store :=
  if user.ID == 0 then
    (.error .errUserIDNil, st)
  else
    (.ok (), saveUserRepo st user)

/-- `UserService.SetIsActive` (state-changing part; the trailing re-read
does not mutate the store). -/
def setIsActiveService (st : Store) (id : UUID) (isActive : Bool) :
    Except DomainError Unit × Store :=
  if id == 0 then
    (.error .errOneOfParametersNil, st)
  else
    setIsActiveRepo st id isActive

/-- `TeamService.CreateTeamWithMembers`. -/
def CreateTeamWithMembers (st : Store) (team : Team) : Except DomainError Team × Store :=
  if team.Name = "" then
    (.error .errOneOfParametersNil, st)
  else if team.Members.length = 0 then
    (.error .errOneOfParametersNil, st)
  else if existsTeamRepo st team.Name then
    (.error .errTeamExists, st)
  else
    match createTeamWithMembersTx st team with
    | (.error e, st1) => (.error e, st1)
    | (.ok _, st1) => (.ok team, st1)

/-- The HTTP error code the `Reassign` handler (handler.go) answers for a
given domain error. -/
def reassignHandlerCode (e : DomainError) : String :=
  match e with
  | .errPRNotExist => "NOT_FOUND"
  | .errPRMerged => "PR_MERGED"
  | .errNotFound => "NOT_FOUND"
  | .errNoCandidate => "NO_CANDIDATE"
  | .errUserNotAssigned => "NOT_ASSIGNED"
  | _ => "INTERNAL_ERROR"

/-- The status column of the `pull_requests` row with the given id, if any. -/
def statusOfRows (rows : List PRRow) (id : String) : Option StatusPR :=
  (rows.find? (fun p => p.id == id)).map (fun p => p.status)

/-- The stored status of a PR. -/
def statusOf (st : Store) (id : String) : Option StatusPR :=
  statusOfRows st.prRows id

/-- One service-level operation of the system, from any store to the store
it leaves behind (successful or not, with an arbitrary shuffle outcome). -/
inductive Step : Store → Store → Prop where
  | createTeam (st : Store) (team : Team) :
      Step st (CreateTeamWithMembers st team).2
  | saveUser (st : Store) (user : User) :
      Step st (saveUserService st user).2
  | setIsActive (st : Store) (id : UUID) (b : Bool) :
      Step st (setIsActiveService st id b).2
  | createPR (st : Store) (shuffle : List User → List User) (hsh : shuffleOK shuffle)
      (prID prName : String) (authorID : UUID) (now : Nat) :
      Step st (CreatePR shuffle st prID prName authorID now).2
  | reassign (st : Store) (shuffle : List User → List User) (hsh : shuffleOK shuffle)
      (prID : String) (oldUserID : UUID) :
      Step st (ReassignmentReviewers shuffle st prID oldUserID).2
  | setMerge (st : Store) (prID : String) (now : Nat) :
      Step st (SetMergeService st prID now).2

/-- The database invariant maintained by every operation: `pull_requests`
ids are unique (primary key), every reviewer row references an existing PR
(foreign key), and no PR's author appears among its reviewer rows (the
no-self-review policy). -/
def Inv (st : Store) : Prop :=
  (st.prRows.map PRRow.id).Nodup
  ∧ (∀ l ∈ st.reviewerLinks, ∃ p ∈ st.prRows, p.id = l.1)
  ∧ (∀ l ∈ st.reviewerLinks, ∀ p ∈ st.prRows, p.id = l.1 → l.2 ≠ p.authorID)

/-- Stores reachable from the empty database through service operations
whose shuffle permutes its input. -/
inductive Reachable : Store → Prop where
  | init : Reachable emptyStore
  | step {st st2 : Store} : Reachable st → Step st st2 → Reachable st2

/-! ## Concrete fixtures used by witnesses -/

/-- The identity shuffle, used by concrete witnesses. -/
def idShuffle : List User → List User := fun l => l

/-- A store with one team of four active users, one open PR authored by
user 1 with reviewers 2 and 3. -/
def wStore : Store :=
  ⟨["T"],
   [⟨1, "a", true, "T"⟩, ⟨2, "b", true, "T"⟩, ⟨3, "c", true, "T"⟩, ⟨4, "d", true, "T"⟩],
   [⟨"pr1", "feat", .OPEN, 1, 10, none⟩],
   [("pr1", 2), ("pr1", 3)]⟩

/-- The PR stored in `wStore`. -/
def wPR : PullRequest := ⟨"pr1", "feat", .OPEN, 1, [2, 3], 10, none⟩

/-- `wStore` after reassigning reviewer 2 away (deterministic under
`idShuffle`: the only candidate is user 4). -/
def wStoreAfter : Store :=
  ⟨["T"],
   [⟨1, "a", true, "T"⟩, ⟨2, "b", true, "T"⟩, ⟨3, "c", true, "T"⟩, ⟨4, "d", true, "T"⟩],
   [⟨"pr1", "feat", .OPEN, 1, 10, none⟩],
   [("pr1", 3), ("pr1", 4)]⟩

/-- The refreshed PR returned by that reassignment. -/
def wPRAfter : PullRequest := ⟨"pr1", "feat", .OPEN, 1, [3, 4], 10, none⟩

/-- A store where the PR's team has no eligible replacement: every active
team member is the author or already a reviewer. -/
def wStoreFull : Store :=
  ⟨["T"],
   [⟨1, "a", true, "T"⟩, ⟨2, "b", true, "T"⟩, ⟨3, "c", true, "T"⟩],
   [⟨"pr1", "feat", .OPEN, 1, 10, none⟩],
   [("pr1", 2), ("pr1", 3)]⟩

/-- `wStore` after its PR has been merged. -/
def wStoreMerged : Store :=
  ⟨["T"],
   [⟨1, "a", true, "T"⟩, ⟨2, "b", true, "T"⟩, ⟨3, "c", true, "T"⟩, ⟨4, "d", true, "T"⟩],
   [⟨"pr1", "feat", .MERGED, 1, 10, some 20⟩],
   [("pr1", 2), ("pr1", 3)]⟩

/-! ## Basic lemmas about the repository layer -/

theorem mem_getActiveTeamMembers {st : Store} {teamName : String} {excludeIDs : List UUID}
    {u : User} :
    u ∈ getActiveTeamMembers st teamName excludeIDs ↔
      u ∈ st.users ∧ u.TeamName = teamName ∧ u.IsActive = true ∧ u.ID ∉ excludeIDs := by
  simp [getActiveTeamMembers, List.mem_filter]

theorem getUserByID_ok {st : Store} {id : UUID} {u : User}
    (h : getUserByID st id = .ok u) : u ∈ st.users ∧ u.ID = id := by
  unfold getUserByID at h
  cases hf : st.users.find? (fun u => u.ID == id) with
  | none => rw [hf] at h; cases h
  | some v =>
    rw [hf] at h
    cases h
    exact ⟨List.mem_of_find?_eq_some hf, by simpa using List.find?_some hf⟩

theorem mem_reviewersOf {st : Store} {id : String} {x : UUID} :
    x ∈ reviewersOf st id ↔ (id, x) ∈ st.reviewerLinks := by
  constructor
  · intro hx
    simp only [reviewersOf, List.mem_map, List.mem_filter] at hx
    obtain ⟨l, ⟨hl, hid⟩, hx⟩ := hx
    have : l.1 = id := by simpa using hid
    cases l
    simp_all
  · intro hx
    simp only [reviewersOf, List.mem_map, List.mem_filter]
    exact ⟨(id, x), ⟨hx, by simp⟩, rfl⟩

theorem getPRByID_ok {st : Store} {id : String} {pr : PullRequest}
    (h : getPRByID st id = .ok pr) :
    ∃ row ∈ st.prRows, row.id = id ∧ st.prRows.find? (fun p => p.id == id) = some row ∧
      pr = ⟨row.id, row.name, row.status, row.authorID, reviewersOf st id,
            row.createdAt, row.mergedAt⟩ := by
  unfold getPRByID at h
  cases hf : st.prRows.find? (fun p => p.id == id) with
  | none => rw [hf] at h; cases h
  | some row =>
    rw [hf] at h
    cases h
    exact ⟨row, List.mem_of_find?_eq_some hf, by simpa using List.find?_some hf, rfl, rfl⟩

theorem getPRByID_ok_fields {st : Store} {id : String} {pr : PullRequest}
    (h : getPRByID st id = .ok pr) :
    pr.ID = id ∧ pr.AssignedReviewers = reviewersOf st id := by
  obtain ⟨row, _, hid, _, hpr⟩ := getPRByID_ok h
  subst hpr
  exact ⟨hid, rfl⟩

theorem prExists_false_not_mem {st : Store} {id : String}
    (h : prExists st id = false) : ∀ p ∈ st.prRows, p.id ≠ id := by
  intro p hp
  simp only [prExists, List.any_eq_false] at h
  simpa using h p hp

/-! ## Lemmas about the candidate selector -/

theorem getRandomReviewers_nil (shuffle : List User → List User) (count : Nat) :
    getRandomReviewers shuffle [] count = ([], []) := by
  simp [getRandomReviewers]

theorem getRandomReviewers_length {shuffle : List User → List User}
    (hsh : shuffleOK shuffle) (users : List User) (count : Nat) :
    (getRandomReviewers shuffle users count).1.length = min count users.length := by
  unfold getRandomReviewers
  by_cases h : users.length = 0
  · simp [h]
  · have hlen : (shuffle users).length = users.length := (hsh users).length_eq
    simp only [h, if_false, List.length_map, List.length_take, hlen]
    omega

theorem getRandomReviewers_mem {shuffle : List User → List User}
    (hsh : shuffleOK shuffle) {users : List User} {count : Nat} {id : UUID}
    (h : id ∈ (getRandomReviewers shuffle users count).1) :
    ∃ u ∈ users, u.ID = id := by
  unfold getRandomReviewers at h
  by_cases hn : users.length = 0
  · simp [hn] at h
  · simp only [hn, if_false, List.mem_map] at h
    obtain ⟨u, hu, hid⟩ := h
    exact ⟨u, (hsh users).mem_iff.mp (List.mem_of_mem_take hu), hid⟩

theorem getRandomReviewers_all {shuffle : List User → List User}
    (hsh : shuffleOK shuffle) {users : List User} {count : Nat}
    (h : users.length ≤ count) :
    ((getRandomReviewers shuffle users count).1).Perm (users.map User.ID) := by
  unfold getRandomReviewers
  by_cases hn : users.length = 0
  · simp [hn, List.length_eq_zero.mp hn]
  · have hlen : (shuffle users).length = users.length := (hsh users).length_eq
    have hmin : min count (shuffle users).length = (shuffle users).length := by omega
    simp only [hn, if_false, hmin, List.take_length]
    exact (hsh users).map User.ID

theorem getRandomReviewers_snd_perm {shuffle : List User → List User}
    (hsh : shuffleOK shuffle) (users : List User) (count : Nat) :
    ((getRandomReviewers shuffle users count).2).Perm users := by
  unfold getRandomReviewers
  by_cases hn : users.length = 0
  · simp [hn]
  · simp only [hn, if_false]
    exact hsh users

theorem getRandomReviewers_ne_nil {shuffle : List User → List User}
    (hsh : shuffleOK shuffle) {users : List User} {count : Nat}
    (hu : users ≠ []) (hc : count ≠ 0) :
    (getRandomReviewers shuffle users count).1 ≠ [] := by
  intro hcon
  have := getRandomReviewers_length hsh users count
  rw [hcon] at this
  have hul : users.length ≠ 0 := fun h => hu (List.length_eq_zero.mp h)
  simp at this
  omega

/-! ## Lemmas about the mutating repository operations -/

theorem createPRRepo_of_not_exists {st : Store} {pr : PullRequest}
    (h : prExists st pr.ID = false) :
    createPRRepo st pr = (.ok (), { st with
      prRows := st.prRows ++ [⟨pr.ID, pr.Name, pr.Status, pr.AuthorID, pr.CreatedAt, pr.MergedAt⟩],
      reviewerLinks := st.reviewerLinks ++ pr.AssignedReviewers.map (fun r => (pr.ID, r)) }) := by
  unfold prExists at h
  unfold createPRRepo
  rw [if_neg]
  simp [h]

theorem filter_drop_old_link_eq_self {st : Store} {r : Reassignment}
    (h : (r.PullRequestID, r.OldUserID) ∉ st.reviewerLinks) :
    st.reviewerLinks.filter
      (fun l => !(l.1 == r.PullRequestID && l.2 == r.OldUserID)) = st.reviewerLinks := by
  apply List.filter_eq_self.mpr
  intro l hl
  simp only [Bool.not_eq_true', Bool.and_eq_false_iff, beq_eq_false_iff_ne, ne_eq]
  by_contra hcon
  push_neg at hcon
  obtain ⟨h1, h2⟩ := hcon
  exact h (by cases l; simp_all)

theorem reassignReviewerRepo_not_assigned {st : Store} {r : Reassignment}
    (h : (r.PullRequestID, r.OldUserID) ∉ st.reviewerLinks) :
    reassignReviewerRepo st r = (.error .errUserNotAssigned, st) := by
  unfold reassignReviewerRepo
  dsimp only
  rw [filter_drop_old_link_eq_self h]
  simp

theorem reassignReviewerRepo_ok_inv {st : Store} {r : Reassignment} {u : Unit} {st1 : Store}
    (h : reassignReviewerRepo st r = (.ok u, st1)) :
    (r.PullRequestID, r.OldUserID) ∈ st.reviewerLinks
    ∧ st1 = { st with reviewerLinks :=
        st.reviewerLinks.filter (fun l => !(l.1 == r.PullRequestID && l.2 == r.OldUserID))
          ++ [(r.PullRequestID, r.NewUserID)] } := by
  unfold reassignReviewerRepo at h
  dsimp only at h
  split at h
  · simp at h
  · rename_i hlen
    simp only [Prod.mk.injEq, Except.ok.injEq] at h
    refine ⟨?_, h.2.symm⟩
    by_contra hmem
    apply hlen
    rw [filter_drop_old_link_eq_self hmem]
    simp

/-- The reviewer rows of the reassigned PR after a successful repository
reassignment: the old reviewer's rows for that PR removed, the new
reviewer's row appended. -/
theorem reviewersOf_after_reassign {st : Store} {r : Reassignment} {u : Unit} {st1 : Store}
    (h : reassignReviewerRepo st r = (.ok u, st1)) {x : UUID} :
    x ∈ reviewersOf st1 r.PullRequestID ↔
      (x ∈ reviewersOf st r.PullRequestID ∧ x ≠ r.OldUserID) ∨ x = r.NewUserID := by
  obtain ⟨-, hst⟩ := reassignReviewerRepo_ok_inv h
  subst hst
  simp only [mem_reviewersOf, List.mem_append, List.mem_filter, List.mem_singleton]
  constructor
  · rintro (⟨hmem, hpred⟩ | hx)
    · left
      refine ⟨hmem, ?_⟩
      simp only [Bool.not_eq_true', Bool.and_eq_false_iff, beq_eq_false_iff_ne, ne_eq] at hpred
      rcases hpred with h1 | h2
      · simp at h1
      · simpa using h2
    · right
      exact (Prod.mk.injEq _ _ _ _ ▸ hx).2
  · rintro (⟨hmem, hne⟩ | hx)
    · left
      exact ⟨hmem, by simp [hne]⟩
    · right
      simp [hx]

theorem reassignReviewerRepo_prRows {st : Store} {r : Reassignment} {u : Unit} {st1 : Store}
    (h : reassignReviewerRepo st r = (.ok u, st1)) : st1.prRows = st.prRows := by
  obtain ⟨-, hst⟩ := reassignReviewerRepo_ok_inv h
  subst hst
  rfl

/-! ## Inversion of the service operations on success -/

theorem reassign_ok_inv {shuffle : List User → List User} {st : Store} {prID : String}
    {oldUserID : UUID} {pr : PullRequest} {newID : UUID} {st1 : Store}
    (h : ReassignmentReviewers shuffle st prID oldUserID = (.ok (pr, newID), st1)) :
    ∃ pre author,
      getPRByID st prID = .ok pre
      ∧ pre.Status = .OPEN
      ∧ getUserByID st pre.AuthorID = .ok author
      ∧ author.ID ≠ oldUserID
      ∧ newID ∈ ((getRandomReviewers shuffle
            (getActiveTeamMembers st author.TeamName
              (pre.AssignedReviewers ++ [author.ID])) countReassignReviewer).1)
      ∧ reassignReviewerRepo st ⟨prID, oldUserID, newID⟩ = (.ok (), st1)
      ∧ getPRByID st1 prID = .ok pr := by
  unfold ReassignmentReviewers at h
  split at h
  · simp at h
  · split at h
    · simp at h
    · rename_i pre hpre
      split at h
      · simp at h
      · rename_i hopen
        split at h
        · simp at h
        · rename_i author hauthor
          split at h
          · simp at h
          · rename_i hne
            dsimp only at h
            split at h
            · simp at h
            · rename_i newRev rest hsel
              split at h
              · simp at h
              · rename_i u st2 hrepo
                split at h
                · simp at h
                · rename_i updated hupd
                  simp only [Prod.mk.injEq, Except.ok.injEq] at h
                  obtain ⟨⟨h1, h2⟩, h3⟩ := h
                  subst h1; subst h2; subst h3
                  refine ⟨pre, author, hpre, ?_, hauthor, ?_, ?_, ?_, hupd⟩
                  · cases hs : pre.Status
                    · rfl
                    · exact absurd hs hopen
                  · simpa using hne
                  · rw [hsel]; exact List.mem_cons_self _ _
                  · cases u; exact hrepo

theorem createPR_ok_inv {shuffle : List User → List User} {st : Store}
    {prID prName : String} {authorID : UUID} {now : Nat} {pr : PullRequest} {st1 : Store}
    (h : CreatePR shuffle st prID prName authorID now = (.ok pr, st1)) :
    prExists st prID = false
    ∧ ∃ author, getUserByID st authorID = .ok author ∧ author.IsActive = true
      ∧ pr = ⟨prID, prName, .OPEN, authorID,
          (getRandomReviewers shuffle
            (getActiveTeamMembers st author.TeamName [author.ID]) countReviewers).1,
          now, none⟩
      ∧ st1 = { st with
          prRows := st.prRows ++ [⟨prID, prName, .OPEN, authorID, now, none⟩],
          reviewerLinks := st.reviewerLinks
            ++ pr.AssignedReviewers.map (fun r => (prID, r)) } := by
  unfold CreatePR at h
  split at h
  · simp at h
  · rename_i hEx
    have hEx' : prExists st prID = false := by
      cases hb : prExists st prID
      · rfl
      · exact absurd hb hEx
    split at h
    · simp at h
    · rename_i author hauthor
      split at h
      · simp at h
      · rename_i hactive
        have hact : author.IsActive = true := by
          cases hb : author.IsActive
          · exact absurd hb hactive
          · rfl
        dsimp only at h
        rw [createPRRepo_of_not_exists hEx'] at h
        simp only [Prod.mk.injEq, Except.ok.injEq] at h
        obtain ⟨h1, h2⟩ := h
        exact ⟨hEx', author, hauthor, hact, h1.symm, by rw [← h2, ← h1]⟩

theorem prExists_of_getPRByID_ok {st : Store} {id : String} {pr : PullRequest}
    (h : getPRByID st id = .ok pr) : prExists st id = true := by
  obtain ⟨row, hmem, hid, -, -⟩ := getPRByID_ok h
  exact List.any_eq_true.mpr ⟨row, hmem, by simp [hid]⟩

theorem idShuffle_ok : shuffleOK idShuffle := fun l => List.Perm.refl l

/-! ## Claim C5: a successful reassignment picks a fresh, active teammate -/

/-- C5: on every successful ReassignReviewer call, the newly assigned
reviewer id was not in the PR's pre-call reviewer set, differs from the
author id, and belongs to an active member of the author's team at
selection time. -/
theorem reassign_new_reviewer_fresh {shuffle : List User → List User} {st : Store}
    {prID : String} {oldUserID : UUID} {pr : PullRequest} {newID : UUID} {st1 : Store}
    (hsh : shuffleOK shuffle)
    (h : ReassignmentReviewers shuffle st prID oldUserID = (.ok (pr, newID), st1)) :
    ∃ pre author,
      getPRByID st prID = .ok pre
      ∧ getUserByID st pre.AuthorID = .ok author
      ∧ newID ∉ pre.AssignedReviewers
      ∧ newID ≠ pre.AuthorID
      ∧ ∃ u ∈ st.users, u.ID = newID ∧ u.IsActive = true ∧ u.TeamName = author.TeamName := by
  obtain ⟨pre, author, hpre, hopen, hauthor, hne, hmem, hrepo, hupd⟩ := reassign_ok_inv h
  obtain ⟨u, hu, hid⟩ := getRandomReviewers_mem hsh hmem
  obtain ⟨huser, hteam, hactive, hexcl⟩ := mem_getActiveTeamMembers.mp hu
  have hauthorID : author.ID = pre.AuthorID := (getUserByID_ok hauthor).2
  simp only [List.mem_append, List.mem_singleton, not_or] at hexcl
  refine ⟨pre, author, hpre, hauthor, ?_, ?_, u, huser, hid, hactive, hteam⟩
  · rw [← hid]; exact hexcl.1
  · rw [← hid, ← hauthorID]; exact hexcl.2

/-- Witness for C5: reassigning reviewer 2 of `wStore`'s PR succeeds and
picks user 4, who was neither a reviewer nor the author. -/
theorem reassign_new_reviewer_fresh_witness :
    shuffleOK idShuffle
    ∧ ReassignmentReviewers idShuffle wStore "pr1" 2 = (.ok (wPRAfter, 4), wStoreAfter)
    ∧ ∃ pre author,
        getPRByID wStore "pr1" = .ok pre
        ∧ getUserByID wStore pre.AuthorID = .ok author
        ∧ 4 ∉ pre.AssignedReviewers
        ∧ 4 ≠ pre.AuthorID
        ∧ ∃ u ∈ wStore.users, u.ID = 4 ∧ u.IsActive = true ∧ u.TeamName = author.TeamName :=
  ⟨idShuffle_ok, by rfl,
   @reassign_new_reviewer_fresh idShuffle wStore "pr1" 2 wPRAfter 4 wStoreAfter
     idShuffle_ok (by rfl)⟩

/-! ## Claim C6: empty replacement pool fails with NoCandidate, no mutation -/

/-- C6: a ReassignReviewer call on an existing open PR whose eligible
replacement pool (active team members minus current reviewers and the
author) is empty fails with `ErrNoCandidate`, and the store — in
particular the PR's reviewer set — is returned unchanged. -/
theorem reassign_no_candidate {shuffle : List User → List User} {st : Store}
    {prID : String} {oldUserID : UUID} {pre : PullRequest} {author : User}
    (hpre : getPRByID st prID = .ok pre)
    (hopen : pre.Status = .OPEN)
    (hauthor : getUserByID st pre.AuthorID = .ok author)
    (hold : author.ID ≠ oldUserID)
    (hpool : getActiveTeamMembers st author.TeamName
      (pre.AssignedReviewers ++ [author.ID]) = []) :
    ReassignmentReviewers shuffle st prID oldUserID = (.error .errNoCandidate, st)
    ∧ reviewersOf (ReassignmentReviewers shuffle st prID oldUserID).2 prID
        = reviewersOf st prID := by
  have hEx : prExists st prID = true := prExists_of_getPRByID_ok hpre
  have hmain : ReassignmentReviewers shuffle st prID oldUserID
      = (.error .errNoCandidate, st) := by
    unfold ReassignmentReviewers
    rw [hEx, if_neg (by simp), hpre]
    dsimp only
    rw [if_neg (by simp [hopen]), hauthor]
    dsimp only
    rw [if_neg (by simp [hold]), hpool, getRandomReviewers_nil]
  exact ⟨hmain, by rw [hmain]⟩

/-- Witness for C6 on `wStoreFull`, whose team offers no replacement. -/
theorem reassign_no_candidate_witness :
    getPRByID wStoreFull "pr1" = .ok wPR
    ∧ wPR.Status = .OPEN
    ∧ getUserByID wStoreFull wPR.AuthorID = .ok ⟨1, "a", true, "T"⟩
    ∧ (⟨1, "a", true, "T"⟩ : User).ID ≠ 2
    ∧ getActiveTeamMembers wStoreFull (⟨1, "a", true, "T"⟩ : User).TeamName
        (wPR.AssignedReviewers ++ [(⟨1, "a", true, "T"⟩ : User).ID]) = []
    ∧ (ReassignmentReviewers idShuffle wStoreFull "pr1" 2
          = (.error .errNoCandidate, wStoreFull)
        ∧ reviewersOf (ReassignmentReviewers idShuffle wStoreFull "pr1" 2).2 "pr1"
            = reviewersOf wStoreFull "pr1") :=
  ⟨by rfl, by decide, by rfl, by decide, by decide,
   reassign_no_candidate (by rfl) (by decide) (by rfl) (by decide) (by decide)⟩

/-! ## Claim C2: the delete's affected-row count gates the insert -/

/-- C2: if the old reviewer is not in the PR's reviewer set at mutation
time, the repository transaction fails with `ErrUserNotAssigned` leaving
the store exactly as before, no insert happens without a matching delete
(every successful transaction deleted an existing assignment row), and the
service surfaces the same `ErrUserNotAssigned` with the store unchanged. -/
theorem reassign_user_not_assigned {shuffle : List User → List User} {st : Store}
    {prID : String} {oldUserID : UUID} {pre : PullRequest} {author : User}
    (hsh : shuffleOK shuffle)
    (hpre : getPRByID st prID = .ok pre)
    (hopen : pre.Status = .OPEN)
    (hauthor : getUserByID st pre.AuthorID = .ok author)
    (hold : author.ID ≠ oldUserID)
    (hnotrev : oldUserID ∉ reviewersOf st prID) :
    (∀ newID, reassignReviewerRepo st ⟨prID, oldUserID, newID⟩
        = (.error .errUserNotAssigned, st))
    ∧ (∀ r : Reassignment, ∀ u st2, reassignReviewerRepo st r = (.ok u, st2) →
        r.OldUserID ∈ reviewersOf st r.PullRequestID)
    ∧ (getActiveTeamMembers st author.TeamName (pre.AssignedReviewers ++ [author.ID]) ≠ [] →
        ReassignmentReviewers shuffle st prID oldUserID
          = (.error .errUserNotAssigned, st)) := by
  have hEx : prExists st prID = true := prExists_of_getPRByID_ok hpre
  have hrepo : ∀ newID : UUID, reassignReviewerRepo st ⟨prID, oldUserID, newID⟩
      = (.error .errUserNotAssigned, st) := by
    intro newID
    exact reassignReviewerRepo_not_assigned (by
      intro hmem
      exact hnotrev (mem_reviewersOf.mpr hmem))
  refine ⟨hrepo, ?_, ?_⟩
  · intro r u st2 hok
    exact mem_reviewersOf.mpr (reassignReviewerRepo_ok_inv hok).1
  · intro hpool
    unfold ReassignmentReviewers
    rw [hEx, if_neg (by simp), hpre]
    dsimp only
    rw [if_neg (by simp [hopen]), hauthor]
    dsimp only
    rw [if_neg (by simp [hold])]
    cases hsel : (getRandomReviewers shuffle
        (getActiveTeamMembers st author.TeamName
          (pre.AssignedReviewers ++ [author.ID])) countReassignReviewer).1 with
    | nil =>
      exact absurd hsel (getRandomReviewers_ne_nil hsh hpool (by simp [countReassignReviewer]))
    | cons newID rest =>
      dsimp only
      rw [hrepo newID]

/-- Witness for C2 on `wStore` with old reviewer id 9, which is not
assigned to the PR. -/
theorem reassign_user_not_assigned_witness :
    shuffleOK idShuffle
    ∧ getPRByID wStore "pr1" = .ok wPR
    ∧ wPR.Status = .OPEN
    ∧ getUserByID wStore wPR.AuthorID = .ok ⟨1, "a", true, "T"⟩
    ∧ (⟨1, "a", true, "T"⟩ : User).ID ≠ 9
    ∧ (9 : UUID) ∉ reviewersOf wStore "pr1"
    ∧ ((∀ newID, reassignReviewerRepo wStore ⟨"pr1", 9, newID⟩
          = (.error .errUserNotAssigned, wStore))
        ∧ (∀ r : Reassignment, ∀ u st2, reassignReviewerRepo wStore r = (.ok u, st2) →
            r.OldUserID ∈ reviewersOf wStore r.PullRequestID)
        ∧ (getActiveTeamMembers wStore (⟨1, "a", true, "T"⟩ : User).TeamName
              (wPR.AssignedReviewers ++ [(⟨1, "a", true, "T"⟩ : User).ID]) ≠ [] →
            ReassignmentReviewers idShuffle wStore "pr1" 9
              = (.error .errUserNotAssigned, wStore))) :=
  ⟨idShuffle_ok, by rfl, by decide, by rfl, by decide, by decide,
   reassign_user_not_assigned idShuffle_ok (by rfl) (by decide) (by rfl)
     (by decide) (by decide)⟩

/-! ## Claim C4: a missing PR id is rejected with the wrong error kind -/

/-- C4 (code bug): when the PR id is unknown, `ReassignmentReviewers`
returns `ErrPRExists` — the AlreadyExists sentinel — instead of
`ErrPRNotExist`; the transport's `Reassign` handler therefore answers
`INTERNAL_ERROR` instead of the `NOT_FOUND` that its dead
`errors.Is(err, ErrPRNotExist)` branch was meant to produce. -/
theorem reassign_missing_pr_wrong_error {shuffle : List User → List User} {st : Store}
    {prID : String} {oldUserID : UUID}
    (h : prExists st prID = false) :
    ReassignmentReviewers shuffle st prID oldUserID = (.error .errPRExists, st)
    ∧ reassignHandlerCode .errPRExists = "INTERNAL_ERROR"
    ∧ reassignHandlerCode .errPRNotExist = "NOT_FOUND"
    ∧ DomainError.errPRExists ≠ DomainError.errPRNotExist := by
  refine ⟨?_, rfl, rfl, by decide⟩
  unfold ReassignmentReviewers
  rw [h, if_pos rfl]

/-- Witness for C4: reassigning on the empty store, where no PR exists. -/
theorem reassign_missing_pr_wrong_error_witness :
    prExists emptyStore "pr-1" = false
    ∧ (ReassignmentReviewers idShuffle emptyStore "pr-1" 7
          = (.error .errPRExists, emptyStore)
        ∧ reassignHandlerCode .errPRExists = "INTERNAL_ERROR"
        ∧ reassignHandlerCode .errPRNotExist = "NOT_FOUND"
        ∧ DomainError.errPRExists ≠ DomainError.errPRNotExist) :=
  ⟨rfl, reassign_missing_pr_wrong_error rfl⟩

/-! ## Which operations touch the pull_requests rows, and how -/

theorem saveUserRepo_prRows (st : Store) (u : User) :
    (saveUserRepo st u).prRows = st.prRows := by
  unfold saveUserRepo
  split <;> rfl

theorem foldl_saveTeamMembers_prRows (name : String) :
    ∀ (ms : List User) (acc : Store),
      (ms.foldl (fun a m => saveUserRepo a { m with TeamName := name }) acc).prRows
        = acc.prRows
  | [], _ => rfl
  | m :: ms, acc => by
      rw [List.foldl_cons, foldl_saveTeamMembers_prRows name ms, saveUserRepo_prRows]

theorem createTeamTx_prRows (st : Store) (team : Team) :
    ((createTeamWithMembersTx st team).2).prRows = st.prRows := by
  unfold createTeamWithMembersTx
  split
  · rfl
  · dsimp only
    rw [foldl_saveTeamMembers_prRows]

theorem createTeamService_prRows (st : Store) (team : Team) :
    ((CreateTeamWithMembers st team).2).prRows = st.prRows := by
  unfold CreateTeamWithMembers
  split
  · rfl
  · split
    · rfl
    · split
      · rfl
      · split
        · rename_i e st1 htx
          have h := createTeamTx_prRows st team
          rw [htx] at h
          exact h
        · rename_i u st1 htx
          have h := createTeamTx_prRows st team
          rw [htx] at h
          exact h

theorem saveUserService_prRows (st : Store) (u : User) :
    ((saveUserService st u).2).prRows = st.prRows := by
  unfold saveUserService
  split
  · rfl
  · exact saveUserRepo_prRows st u

theorem setIsActiveService_prRows (st : Store) (id : UUID) (b : Bool) :
    ((setIsActiveService st id b).2).prRows = st.prRows := by
  unfold setIsActiveService setIsActiveRepo
  split
  · rfl
  · split <;> rfl

theorem reassignRepo_prRows_any (st : Store) (r : Reassignment) :
    ((reassignReviewerRepo st r).2).prRows = st.prRows := by
  unfold reassignReviewerRepo
  dsimp only
  split <;> rfl

theorem reassignService_prRows (shuffle : List User → List User) (st : Store)
    (prID : String) (oldUserID : UUID) :
    ((ReassignmentReviewers shuffle st prID oldUserID).2).prRows = st.prRows := by
  unfold ReassignmentReviewers
  split
  · rfl
  · split
    · rfl
    · split
      · rfl
      · split
        · rfl
        · split
          · rfl
          · dsimp only
            split
            · rfl
            · rename_i newID rest hsel
              split
              · rename_i e st1 hrepo
                have h := reassignRepo_prRows_any st ⟨prID, oldUserID, newID⟩
                rw [hrepo] at h
                exact h
              · rename_i u st1 hrepo
                have h := reassignRepo_prRows_any st ⟨prID, oldUserID, newID⟩
                rw [hrepo] at h
                split <;> exact h

theorem statusOfRows_append {rows l2 : List PRRow} {id : String} {s : StatusPR}
    (h : statusOfRows rows id = some s) : statusOfRows (rows ++ l2) id = some s := by
  unfold statusOfRows at h ⊢
  rw [List.find?_append]
  cases hf : rows.find? (fun p => p.id == id) with
  | none => rw [hf] at h; simp at h
  | some r => rw [hf] at h; simpa using h

theorem createPRRepo_statusOf {st : Store} {pr : PullRequest} {id : String} {s : StatusPR}
    (h : statusOf st id = some s) : statusOf ((createPRRepo st pr).2) id = some s := by
  unfold createPRRepo
  split
  · exact h
  · exact statusOfRows_append h

theorem createPRService_statusOf {shuffle : List User → List User} {st : Store}
    {prID prName : String} {authorID : UUID} {now : Nat} {id : String} {s : StatusPR}
    (h : statusOf st id = some s) :
    statusOf ((CreatePR shuffle st prID prName authorID now).2) id = some s := by
  unfold CreatePR
  split
  · exact h
  · split
    · exact h
    · rename_i author hauthor
      split
      · exact h
      · dsimp only
        have hx := @createPRRepo_statusOf st
          ⟨prID, prName, .OPEN, authorID,
           (getRandomReviewers shuffle (getActiveTeamMembers st author.TeamName [author.ID])
             countReviewers).1, now, none⟩ id s h
        split
        · rename_i e st1 hrepo
          rw [hrepo] at hx
          exact hx
        · rename_i u st1 hrepo
          rw [hrepo] at hx
          exact hx

theorem find?_map_of_pred_eq {α : Type} (f : α → α) (p : α → Bool)
    (hf : ∀ a, p (f a) = p a) :
    ∀ l : List α, (l.map f).find? p = (l.find? p).map f := by
  intro l
  induction l with
  | nil => rfl
  | cons a l ih =>
    by_cases ha : p a = true
    · rw [List.map_cons, List.find?_cons_of_pos _ (by rw [hf]; exact ha),
        List.find?_cons_of_pos _ ha]
      simp
    · rw [List.map_cons, List.find?_cons_of_neg _ (by rw [hf]; exact ha),
        List.find?_cons_of_neg _ ha, ih]

theorem statusOfRows_map_merge (target : String) (now : Nat) {id : String}
    {rows : List PRRow} (h : statusOfRows rows id = some .MERGED) :
    statusOfRows (rows.map (fun q =>
      if q.id == target then { q with status := .MERGED, mergedAt := some now } else q))
      id = some .MERGED := by
  unfold statusOfRows at h ⊢
  rw [find?_map_of_pred_eq
    (fun q => if q.id == target then { q with status := .MERGED, mergedAt := some now } else q)
    (fun q => q.id == id)
    (fun q => by by_cases ht : q.id = target <;> simp [ht]) rows]
  cases hf : rows.find? (fun p => p.id == id) with
  | none => rw [hf] at h; simp at h
  | some r =>
    rw [hf] at h
    have hstat : r.status = .MERGED := by simpa using h
    by_cases ht : r.id = target <;> simp [ht, hstat]

theorem statusOfRows_map_set_merged (id : String) (now : Nat)
    {rows : List PRRow} (h : rows.any (fun p => p.id == id) = true) :
    statusOfRows (rows.map (fun q =>
      if q.id == id then { q with status := .MERGED, mergedAt := some now } else q))
      id = some .MERGED := by
  unfold statusOfRows
  rw [find?_map_of_pred_eq
    (fun q => if q.id == id then { q with status := .MERGED, mergedAt := some now } else q)
    (fun q => q.id == id)
    (fun q => by by_cases ht : q.id = id <;> simp [ht]) rows]
  have hsome : (rows.find? (fun p => p.id == id)).isSome := by
    rw [List.find?_isSome]
    rcases List.any_eq_true.mp h with ⟨q, hq, hqid⟩
    exact ⟨q, hq, hqid⟩
  cases hf : rows.find? (fun p => p.id == id) with
  | none => rw [hf] at hsome; simp at hsome
  | some r =>
    have hr := List.find?_some hf
    have hr2 : r.id = id := by simpa using hr
    simp [hr2]

theorem setMergeRepo_statusOf_merged {st : Store} {prID : String} {now : Nat} {id : String}
    (h : statusOf st id = some .MERGED) :
    statusOf ((setMergeRepo st prID now).2) id = some .MERGED := by
  unfold setMergeRepo
  split
  · exact statusOfRows_map_merge prID now h
  · exact h

theorem setMergeService_statusOf_merged {st : Store} {prID : String} {now : Nat} {id : String}
    (h : statusOf st id = some .MERGED) :
    statusOf ((SetMergeService st prID now).2) id = some .MERGED := by
  unfold SetMergeService
  split
  · exact h
  · split
    · rename_i e st1 hrepo
      have hx := @setMergeRepo_statusOf_merged st prID now id h
      rw [hrepo] at hx
      exact hx
    · rename_i u st1 hrepo
      have hx := @setMergeRepo_statusOf_merged st prID now id h
      rw [hrepo] at hx
      split <;> exact hx

/-- No operation moves a MERGED pull request away from MERGED. -/
theorem step_preserves_merged {st st2 : Store} (h : Step st st2) {id : String}
    (hm : statusOf st id = some .MERGED) : statusOf st2 id = some .MERGED := by
  cases h with
  | createTeam team =>
    unfold statusOf
    rw [createTeamService_prRows]
    exact hm
  | saveUser user =>
    unfold statusOf
    rw [saveUserService_prRows]
    exact hm
  | setIsActive uid b =>
    unfold statusOf
    rw [setIsActiveService_prRows]
    exact hm
  | createPR shuffle hsh prID prName authorID now =>
    exact createPRService_statusOf hm
  | reassign shuffle hsh prID oldUserID =>
    unfold statusOf
    rw [reassignService_prRows]
    exact hm
  | setMerge prID now =>
    exact setMergeService_statusOf_merged hm

/-! ## Preservation of the database invariant -/

theorem inv_of_same_tables {st st2 : Store} (hp : st2.prRows = st.prRows)
    (hl : st2.reviewerLinks = st.reviewerLinks) (h : Inv st) : Inv st2 := by
  unfold Inv at h ⊢
  rw [hp, hl]
  exact h

theorem saveUserRepo_reviewerLinks (st : Store) (u : User) :
    (saveUserRepo st u).reviewerLinks = st.reviewerLinks := by
  unfold saveUserRepo
  split <;> rfl

theorem foldl_saveTeamMembers_reviewerLinks (name : String) :
    ∀ (ms : List User) (acc : Store),
      (ms.foldl (fun a m => saveUserRepo a { m with TeamName := name }) acc).reviewerLinks
        = acc.reviewerLinks
  | [], _ => rfl
  | m :: ms, acc => by
      rw [List.foldl_cons, foldl_saveTeamMembers_reviewerLinks name ms, saveUserRepo_reviewerLinks]

theorem createTeamService_reviewerLinks (st : Store) (team : Team) :
    ((CreateTeamWithMembers st team).2).reviewerLinks = st.reviewerLinks := by
  unfold CreateTeamWithMembers createTeamWithMembersTx
  split
  · rfl
  · split
    · rfl
    · split
      · rfl
      · split
        · rename_i e st1 htx
          split at htx
          · cases htx; rfl
          · dsimp only at htx
            cases htx
        · rename_i u st1 htx
          split at htx
          · cases htx
          · dsimp only at htx
            cases htx
            rw [foldl_saveTeamMembers_reviewerLinks]

theorem saveUserService_reviewerLinks (st : Store) (u : User) :
    ((saveUserService st u).2).reviewerLinks = st.reviewerLinks := by
  unfold saveUserService
  split
  · rfl
  · exact saveUserRepo_reviewerLinks st u

theorem setIsActiveService_reviewerLinks (st : Store) (id : UUID) (b : Bool) :
    ((setIsActiveService st id b).2).reviewerLinks = st.reviewerLinks := by
  unfold setIsActiveService setIsActiveRepo
  split
  · rfl
  · split <;> rfl

theorem createPRRepo_preserves_inv {st : Store} {pr : PullRequest} (hInv : Inv st)
    (hrev : ∀ r ∈ pr.AssignedReviewers, r ≠ pr.AuthorID) :
    Inv ((createPRRepo st pr).2) := by
  unfold createPRRepo
  split
  · exact hInv
  · rename_i hEx
    have hEx2 : ∀ p ∈ st.prRows, p.id ≠ pr.ID := by
      intro p hp heq
      exact hEx (List.any_eq_true.mpr ⟨p, hp, by simp [heq]⟩)
    obtain ⟨hnodup, hfk, hns⟩ := hInv
    refine ⟨?_, ?_, ?_⟩
    · rw [List.map_append]
      refine List.Nodup.append hnodup (by simp) ?_
      intro x hx hy
      simp only [List.map_cons, List.map_nil, List.mem_singleton] at hy
      obtain ⟨p, hp, hpid⟩ := List.mem_map.mp hx
      exact hEx2 p hp (hpid.trans hy)
    · intro l hl
      rcases List.mem_append.mp hl with hOld | hNew
      · obtain ⟨p, hp, hpid⟩ := hfk l hOld
        exact ⟨p, List.mem_append_left _ hp, hpid⟩
      · obtain ⟨r, hr, hlr⟩ := List.mem_map.mp hNew
        exact ⟨⟨pr.ID, pr.Name, pr.Status, pr.AuthorID, pr.CreatedAt, pr.MergedAt⟩,
          List.mem_append_right _ (by simp), by rw [← hlr]⟩
    · intro l hl p hp hpid
      rcases List.mem_append.mp hl with hOld | hNew
      · rcases List.mem_append.mp hp with hpOld | hpNew
        · exact hns l hOld p hpOld hpid
        · simp only [List.mem_singleton] at hpNew
          obtain ⟨p0, hp0, hp0id⟩ := hfk l hOld
          refine absurd (hp0id.trans hpid.symm) ?_
          subst hpNew
          exact fun hcon => hEx2 p0 hp0 hcon
      · obtain ⟨r, hr, hlr⟩ := List.mem_map.mp hNew
        subst hlr
        rcases List.mem_append.mp hp with hpOld | hpNew
        · exact absurd hpid (hEx2 p hpOld)
        · simp only [List.mem_singleton] at hpNew
          subst hpNew
          simpa using hrev r hr

theorem reassignRepo_preserves_inv {st : Store} {r : Reassignment} (hInv : Inv st)
    (hrow : ∃ p ∈ st.prRows, p.id = r.PullRequestID)
    (hnew : ∀ p ∈ st.prRows, p.id = r.PullRequestID → r.NewUserID ≠ p.authorID) :
    Inv ((reassignReviewerRepo st r).2) := by
  unfold reassignReviewerRepo
  dsimp only
  split
  · exact hInv
  · obtain ⟨hnodup, hfk, hns⟩ := hInv
    refine ⟨hnodup, ?_, ?_⟩
    · intro l hl
      rcases List.mem_append.mp hl with hOld | hNew
      · exact hfk l (List.mem_filter.mp hOld).1
      · simp only [List.mem_singleton] at hNew
        subst hNew
        exact hrow
    · intro l hl p hp hpid
      rcases List.mem_append.mp hl with hOld | hNew
      · exact hns l (List.mem_filter.mp hOld).1 p hp hpid
      · simp only [List.mem_singleton] at hNew
        subst hNew
        exact hnew p hp hpid

theorem map_id_of_preserve {f : PRRow → PRRow} (hf : ∀ p, (f p).id = p.id) :
    ∀ rows : List PRRow, (rows.map f).map PRRow.id = rows.map PRRow.id
  | [] => rfl
  | p :: ps => by
      rw [List.map_cons, List.map_cons, List.map_cons, map_id_of_preserve hf ps, hf p]

theorem setMergeRepo_preserves_inv {st : Store} {prID : String} {now : Nat}
    (hInv : Inv st) : Inv ((setMergeRepo st prID now).2) := by
  unfold setMergeRepo
  split
  · obtain ⟨hnodup, hfk, hns⟩ := hInv
    have hid : ∀ p : PRRow,
        ((if p.id == prID then { p with status := StatusPR.MERGED, mergedAt := some now }
          else p) : PRRow).id = p.id := by
      intro p
      by_cases hq : p.id = prID <;> simp [hq]
    have hauth : ∀ p : PRRow,
        ((if p.id == prID then { p with status := StatusPR.MERGED, mergedAt := some now }
          else p) : PRRow).authorID = p.authorID := by
      intro p
      by_cases hq : p.id = prID <;> simp [hq]
    refine ⟨?_, ?_, ?_⟩
    · rw [map_id_of_preserve hid st.prRows]
      exact hnodup
    · intro l hl
      obtain ⟨p, hp, hpid⟩ := hfk l hl
      exact ⟨_, List.mem_map.mpr ⟨p, hp, rfl⟩, by rw [hid p]; exact hpid⟩
    · intro l hl p2 hp2 hpid2
      obtain ⟨p, hp, hfp⟩ := List.mem_map.mp hp2
      subst hfp
      rw [hauth p]
      exact hns l hl p hp (by rw [hid p] at hpid2; exact hpid2)
  · exact hInv

theorem createPRService_preserves_inv {shuffle : List User → List User} {st : Store}
    {prID prName : String} {authorID : UUID} {now : Nat}
    (hsh : shuffleOK shuffle) (hInv : Inv st) :
    Inv ((CreatePR shuffle st prID prName authorID now).2) := by
  unfold CreatePR
  split
  · exact hInv
  · split
    · exact hInv
    · rename_i author hauthor
      split
      · exact hInv
      · dsimp only
        have hx := @createPRRepo_preserves_inv st
          ⟨prID, prName, .OPEN, authorID,
           (getRandomReviewers shuffle (getActiveTeamMembers st author.TeamName [author.ID])
             countReviewers).1, now, none⟩ hInv
          (by
            intro r hr heq
            obtain ⟨u, hu, hid⟩ := getRandomReviewers_mem hsh hr
            obtain ⟨-, -, -, hexcl⟩ := mem_getActiveTeamMembers.mp hu
            apply hexcl
            simp only [List.mem_singleton]
            rw [hid, (getUserByID_ok hauthor).2]
            exact heq)
        split
        · rename_i e st1 hrepo
          rw [hrepo] at hx
          exact hx
        · rename_i u st1 hrepo
          rw [hrepo] at hx
          exact hx

theorem reassignService_preserves_inv {shuffle : List User → List User} {st : Store}
    {prID : String} {oldUserID : UUID}
    (hsh : shuffleOK shuffle) (hInv : Inv st) :
    Inv ((ReassignmentReviewers shuffle st prID oldUserID).2) := by
  unfold ReassignmentReviewers
  split
  · exact hInv
  · split
    · exact hInv
    · rename_i pre hpre
      split
      · exact hInv
      · split
        · exact hInv
        · rename_i author hauthor
          split
          · exact hInv
          · dsimp only
            split
            · exact hInv
            · rename_i newID rest hsel
              obtain ⟨row0, hrow0, hrow0id, hfind, hprestruct⟩ := getPRByID_ok hpre
              have hnewmem : newID ∈ (getRandomReviewers shuffle
                  (getActiveTeamMembers st author.TeamName
                    (pre.AssignedReviewers ++ [author.ID])) countReassignReviewer).1 := by
                rw [hsel]
                exact List.mem_cons_self _ _
              obtain ⟨u, hu, huid⟩ := getRandomReviewers_mem hsh hnewmem
              obtain ⟨-, -, -, hexcl⟩ := mem_getActiveTeamMembers.mp hu
              have hneauthor : newID ≠ pre.AuthorID := by
                intro heq
                apply hexcl
                simp only [List.mem_append, List.mem_singleton]
                right
                rw [huid, (getUserByID_ok hauthor).2, heq]
              have hx := @reassignRepo_preserves_inv st ⟨prID, oldUserID, newID⟩ hInv
                ⟨row0, hrow0, hrow0id⟩
                (by
                  intro p hp hpid
                  have hpeq : p = row0 := List.inj_on_of_nodup_map hInv.1 hp hrow0
                    (by rw [hpid, hrow0id])
                  subst hpeq
                  have : pre.AuthorID = p.authorID := by rw [hprestruct]
                  rw [← this]
                  exact hneauthor)
              split
              · rename_i e st1 hrepo
                rw [hrepo] at hx
                exact hx
              · rename_i u2 st1 hrepo
                rw [hrepo] at hx
                split
                · exact hx
                · exact hx

theorem setMergeService_preserves_inv {st : Store} {prID : String} {now : Nat}
    (hInv : Inv st) : Inv ((SetMergeService st prID now).2) := by
  unfold SetMergeService
  split
  · exact hInv
  · have hx := @setMergeRepo_preserves_inv st prID now hInv
    split
    · rename_i e st1 hrepo
      rw [hrepo] at hx
      exact hx
    · rename_i u st1 hrepo
      rw [hrepo] at hx
      split
      · exact hx
      · exact hx

/-- Every service operation preserves the database invariant. -/
theorem step_preserves_inv {st st2 : Store} (h : Step st st2) (hInv : Inv st) : Inv st2 := by
  cases h with
  | createTeam team =>
    exact inv_of_same_tables (createTeamService_prRows st team)
      (createTeamService_reviewerLinks st team) hInv
  | saveUser user =>
    exact inv_of_same_tables (saveUserService_prRows st user)
      (saveUserService_reviewerLinks st user) hInv
  | setIsActive uid b =>
    exact inv_of_same_tables (setIsActiveService_prRows st uid b)
      (setIsActiveService_reviewerLinks st uid b) hInv
  | createPR shuffle hsh prID prName authorID now =>
    exact createPRService_preserves_inv hsh hInv
  | reassign shuffle hsh prID oldUserID =>
    exact reassignService_preserves_inv hsh hInv
  | setMerge prID now =>
    exact setMergeService_preserves_inv hInv

/-- Every reachable store satisfies the database invariant. -/
theorem reachable_inv {st : Store} (h : Reachable st) : Inv st := by
  induction h with
  | init => exact ⟨List.nodup_nil, by simp [emptyStore], by simp [emptyStore]⟩
  | step _ hstep ih => exact step_preserves_inv hstep ih

theorem getPRByID_status {st : Store} {id : String} {pr : PullRequest}
    (h : getPRByID st id = .ok pr) : statusOf st id = some pr.Status := by
  obtain ⟨row, -, -, hf, hpr⟩ := getPRByID_ok h
  unfold statusOf statusOfRows
  rw [hf]
  subst hpr
  rfl

/-! ## Claim C1: no self-review -/

/-- C1: in any store satisfying the database invariant (which holds in
every reachable store, `reachable_inv`), every successful CreatePR and
every successful ReassignReviewer yields a pull request — both the returned
value and the persisted reviewer rows — whose reviewer set does not contain
its author. -/
theorem no_self_review {shuffle : List User → List User} {st : Store}
    (hsh : shuffleOK shuffle) (hInv : Inv st) :
    (∀ prID prName authorID now pr st1,
        CreatePR shuffle st prID prName authorID now = (.ok pr, st1) →
        pr.AuthorID ∉ pr.AssignedReviewers ∧ pr.AuthorID ∉ reviewersOf st1 pr.ID)
    ∧ (∀ prID oldUserID pr newID st1,
        ReassignmentReviewers shuffle st prID oldUserID = (.ok (pr, newID), st1) →
        pr.AuthorID ∉ pr.AssignedReviewers ∧ pr.AuthorID ∉ reviewersOf st1 pr.ID) := by
  constructor
  · intro prID prName authorID now pr st1 h
    obtain ⟨hEx, author, hauthor, hact, hpr, hst1⟩ := createPR_ok_inv h
    subst hpr
    subst hst1
    have hauthid : author.ID = authorID := (getUserByID_ok hauthor).2
    dsimp only
    have hmem : authorID ∉ (getRandomReviewers shuffle
        (getActiveTeamMembers st author.TeamName [author.ID]) countReviewers).1 := by
      intro hx
      obtain ⟨u, hu, huid⟩ := getRandomReviewers_mem hsh hx
      obtain ⟨-, -, -, hexcl⟩ := mem_getActiveTeamMembers.mp hu
      apply hexcl
      simp only [List.mem_singleton]
      rw [huid, hauthid]
    refine ⟨hmem, ?_⟩
    intro hx
    rw [mem_reviewersOf] at hx
    dsimp only at hx
    rcases List.mem_append.mp hx with hOld | hNew
    · obtain ⟨p, hp, hpid⟩ := hInv.2.1 (prID, authorID) hOld
      exact prExists_false_not_mem hEx p hp hpid
    · obtain ⟨r, hr, hlr⟩ := List.mem_map.mp hNew
      apply hmem
      have hreq : r = authorID := congrArg Prod.snd hlr
      rw [← hreq]
      exact hr
  · intro prID oldUserID pr newID st1 h
    obtain ⟨pre, author, hpre, hopen, hauthor, hne, hmem, hrepo, hupd⟩ := reassign_ok_inv h
    obtain ⟨row0, hrow0, hrow0id, hfind0, hpre2⟩ := getPRByID_ok hpre
    obtain ⟨row1, hrow1, hrow1id, hfind1, hpr⟩ := getPRByID_ok hupd
    have hrows : st1.prRows = st.prRows := reassignReviewerRepo_prRows hrepo
    have hrow1st : row1 ∈ st.prRows := by rw [← hrows]; exact hrow1
    have hauthid : author.ID = pre.AuthorID := (getUserByID_ok hauthor).2
    have hnewne : newID ≠ pre.AuthorID := by
      intro heq
      obtain ⟨u, hu, huid⟩ := getRandomReviewers_mem hsh hmem
      obtain ⟨-, -, -, hexcl⟩ := mem_getActiveTeamMembers.mp hu
      apply hexcl
      simp only [List.mem_append, List.mem_singleton]
      right
      rw [huid, heq, hauthid]
    have hrow01 : row1 = row0 := List.inj_on_of_nodup_map hInv.1 hrow1st hrow0
      (by rw [hrow1id, hrow0id])
    have hprauth : pr.AuthorID = row1.authorID := by rw [hpr]
    have hprrevs : pr.AssignedReviewers = reviewersOf st1 prID := by rw [hpr]
    have hprid : pr.ID = prID := by rw [hpr]; exact hrow1id
    have hnot : pr.AuthorID ∉ reviewersOf st1 prID := by
      intro hx
      rcases (reviewersOf_after_reassign hrepo).mp hx with ⟨hOld, -⟩ | hNewEq
      · have hlink := mem_reviewersOf.mp hOld
        exact hInv.2.2 (prID, pr.AuthorID) hlink row1 hrow1st hrow1id hprauth
      · apply hnewne
        calc newID = pr.AuthorID := hNewEq.symm
          _ = row1.authorID := hprauth
          _ = row0.authorID := by rw [hrow01]
          _ = pre.AuthorID := by rw [hpre2]
    exact ⟨by rw [hprrevs]; exact hnot, by rw [hprid]; exact hnot⟩

/-- Witness for C1 on the concrete store `wStore`. -/
theorem no_self_review_witness :
    shuffleOK idShuffle
    ∧ Inv wStore
    ∧ ((∀ prID prName authorID now pr st1,
          CreatePR idShuffle wStore prID prName authorID now = (.ok pr, st1) →
          pr.AuthorID ∉ pr.AssignedReviewers ∧ pr.AuthorID ∉ reviewersOf st1 pr.ID)
        ∧ (∀ prID oldUserID pr newID st1,
          ReassignmentReviewers idShuffle wStore prID oldUserID = (.ok (pr, newID), st1) →
          pr.AuthorID ∉ pr.AssignedReviewers ∧ pr.AuthorID ∉ reviewersOf st1 pr.ID)) :=
  ⟨idShuffle_ok, by unfold Inv; decide, no_self_review idShuffle_ok (by unfold Inv; decide)⟩

/-! ## Claim C3: merge finality -/

/-- C3: while a PR is stored as MERGED, every ReassignReviewer call on it
fails with `ErrPRMerged` and leaves the store untouched; no service
operation (team creation, user saves, activation toggles, PR creation,
reassignment, merge) ever moves it away from MERGED; and every successful
SetMerge leaves the PR stored as MERGED and returns it with status
MERGED. -/
theorem merge_finality {st : Store} {prID : String}
    (hmerged : statusOf st prID = some .MERGED) :
    (∀ shuffle oldUserID, ReassignmentReviewers shuffle st prID oldUserID
        = (.error .errPRMerged, st))
    ∧ (∀ st2, Step st st2 → statusOf st2 prID = some .MERGED)
    ∧ (∀ st0 now pr st1, SetMergeService st0 prID now = (.ok pr, st1) →
        pr.Status = .MERGED ∧ statusOf st1 prID = some .MERGED) := by
  refine ⟨?_, fun st2 hstep => step_preserves_merged hstep hmerged, ?_⟩
  · intro shuffle oldUserID
    unfold statusOf statusOfRows at hmerged
    cases hf : st.prRows.find? (fun p => p.id == prID) with
    | none => rw [hf] at hmerged; simp at hmerged
    | some row =>
      rw [hf] at hmerged
      have hstat : row.status = .MERGED := by simpa using hmerged
      have hpre : getPRByID st prID = .ok ⟨row.id, row.name, row.status, row.authorID,
          reviewersOf st prID, row.createdAt, row.mergedAt⟩ := by
        unfold getPRByID
        rw [hf]
      have hpred := List.find?_some hf
      have hEx : prExists st prID = true :=
        List.any_eq_true.mpr ⟨row, List.mem_of_find?_eq_some hf, hpred⟩
      unfold ReassignmentReviewers
      rw [hEx, if_neg (by simp), hpre]
      dsimp only
      rw [if_pos hstat]
  · intro st0 now pr st1 hok
    unfold SetMergeService at hok
    split at hok
    · simp at hok
    · split at hok
      · simp at hok
      · rename_i u stX hrepo
        split at hok
        · simp at hok
        · rename_i updated hupd
          simp only [Prod.mk.injEq, Except.ok.injEq] at hok
          obtain ⟨h1, h2⟩ := hok
          subst h1
          subst h2
          have hX : statusOf stX prID = some .MERGED := by
            unfold setMergeRepo at hrepo
            split at hrepo
            · rename_i hany
              simp only [Prod.mk.injEq, Except.ok.injEq] at hrepo
              rw [← hrepo.2]
              exact statusOfRows_map_set_merged prID now hany
            · simp at hrepo
          have hstat := getPRByID_status hupd
          rw [hX] at hstat
          exact ⟨by simpa using hstat.symm, hX⟩

/-- Witness for C3 on the concrete merged store. -/
theorem merge_finality_witness :
    statusOf wStoreMerged "pr1" = some .MERGED
    ∧ ((∀ shuffle oldUserID, ReassignmentReviewers shuffle wStoreMerged "pr1" oldUserID
          = (.error .errPRMerged, wStoreMerged))
      ∧ (∀ st2, Step wStoreMerged st2 → statusOf st2 "pr1" = some .MERGED)
      ∧ (∀ st0 now pr st1, SetMergeService st0 "pr1" now = (.ok pr, st1) →
          pr.Status = .MERGED ∧ statusOf st1 "pr1" = some .MERGED)) :=
  ⟨by decide, merge_finality (by decide)⟩

/-! ## Claim C9: review statistics -/

theorem userReviewCount_eq_numPRs {st : Store}
    (hlinks : st.reviewerLinks.Nodup)
    (hfk : ∀ l ∈ st.reviewerLinks, ∃ p ∈ st.prRows, p.id = l.1)
    (hpr : (st.prRows.map PRRow.id).Nodup) (uid : UUID) :
    userReviewCount st uid = numPRsReviewedBy st uid := by
  unfold userReviewCount numPRsReviewedBy
  have hLn : ((st.reviewerLinks.filter (fun l => l.2 == uid)).map Prod.fst).Nodup := by
    apply List.Nodup.map_on
    · intro x hx y hy hxy
      have hx2 : x.2 = uid := by simpa using (List.mem_filter.mp hx).2
      have hy2 : y.2 = uid := by simpa using (List.mem_filter.mp hy).2
      cases x
      cases y
      simp_all
    · exact List.Nodup.sublist (List.filter_sublist _) hlinks
  have hPn : ((st.prRows.filter (fun p => decide (uid ∈ reviewersOf st p.id))).map
      PRRow.id).Nodup :=
    List.Nodup.sublist (List.Sublist.map PRRow.id (List.filter_sublist _)) hpr
  have hmem : ∀ x, x ∈ (st.reviewerLinks.filter (fun l => l.2 == uid)).map Prod.fst ↔
      x ∈ (st.prRows.filter (fun p => decide (uid ∈ reviewersOf st p.id))).map PRRow.id := by
    intro x
    constructor
    · intro hx
      obtain ⟨l, hl, hlx⟩ := List.mem_map.mp hx
      have hlmem := (List.mem_filter.mp hl).1
      have hl2 : l.2 = uid := by simpa using (List.mem_filter.mp hl).2
      obtain ⟨p, hp, hpid⟩ := hfk l hlmem
      refine List.mem_map.mpr ⟨p, List.mem_filter.mpr ⟨hp, ?_⟩, by rw [hpid, hlx]⟩
      simp only [decide_eq_true_iff]
      rw [mem_reviewersOf, hpid, ← hl2]
      exact hlmem
    · intro hx
      obtain ⟨p, hp, hpx⟩ := List.mem_map.mp hx
      have hpin : uid ∈ reviewersOf st p.id := by
        simpa using (List.mem_filter.mp hp).2
      have hlink : (p.id, uid) ∈ st.reviewerLinks := mem_reviewersOf.mp hpin
      exact List.mem_map.mpr ⟨(p.id, uid), List.mem_filter.mpr ⟨hlink, by simp⟩, by
        simpa using hpx⟩
  have hperm := (List.perm_ext_iff_of_nodup hLn hPn).mpr hmem
  have hlen := hperm.length_eq
  simpa using hlen

/-- C9: under the database uniqueness constraints (reviewer rows are
pairwise distinct, each references an existing PR, PR ids are unique),
GetUserReviewStats returns one entry per user — users reviewing nothing
get count 0 — whose count equals the number of PRs, regardless of status,
whose current reviewer set contains that user, and the list is sorted by
count descending. -/
theorem review_stats_correct {st : Store}
    (hlinks : st.reviewerLinks.Nodup)
    (hfk : ∀ l ∈ st.reviewerLinks, ∃ p ∈ st.prRows, p.id = l.1)
    (hpr : (st.prRows.map PRRow.id).Nodup) :
    (getUserReviewStats st).Perm
      (st.users.map (fun u => ⟨u.ID, u.Username, u.IsActive, numPRsReviewedBy st u.ID⟩))
    ∧ List.Sorted (fun a b => b.ReviewCount ≤ a.ReviewCount) (getUserReviewStats st)
    ∧ (getUserReviewStats st).length = st.users.length := by
  have hmapeq : st.users.map
      (fun u => (⟨u.ID, u.Username, u.IsActive, userReviewCount st u.ID⟩ : UserReviewStat))
      = st.users.map
        (fun u => (⟨u.ID, u.Username, u.IsActive, numPRsReviewedBy st u.ID⟩ : UserReviewStat)) :=
    List.map_eq_map_iff.mpr
      (fun u _ => by rw [userReviewCount_eq_numPRs hlinks hfk hpr])
  have hperm : (getUserReviewStats st).Perm (st.users.map
      (fun u => (⟨u.ID, u.Username, u.IsActive, userReviewCount st u.ID⟩ : UserReviewStat))) :=
    List.perm_insertionSort _ _
  refine ⟨hmapeq ▸ hperm, ?_, ?_⟩
  · exact List.sorted_insertionSort statDescOrder _
  · rw [hperm.length_eq, List.length_map]

/-- Witness for C9 on `wStore` (user 1 reviews nothing and appears with
count 0; users 2 and 3 review one PR each). -/
theorem review_stats_correct_witness :
    wStore.reviewerLinks.Nodup
    ∧ (∀ l ∈ wStore.reviewerLinks, ∃ p ∈ wStore.prRows, p.id = l.1)
    ∧ (wStore.prRows.map PRRow.id).Nodup
    ∧ ((getUserReviewStats wStore).Perm
        (wStore.users.map
          (fun u => ⟨u.ID, u.Username, u.IsActive, numPRsReviewedBy wStore u.ID⟩))
      ∧ List.Sorted (fun a b => b.ReviewCount ≤ a.ReviewCount) (getUserReviewStats wStore)
      ∧ (getUserReviewStats wStore).length = wStore.users.length) :=
  ⟨by decide, by decide, by decide,
   review_stats_correct (by decide) (by decide) (by decide)⟩

/-! ## Claim C10: team creation rewrites each member's team name -/

theorem getUserByID_saveUserRepo_self (st : Store) (u : User) :
    getUserByID (saveUserRepo st u) u.ID = .ok u := by
  have hpred : ∀ y : User,
      (((if y.ID == u.ID then u else y) : User).ID == u.ID) = (y.ID == u.ID) := by
    intro y
    by_cases hy : y.ID = u.ID <;> simp [hy]
  unfold saveUserRepo
  split
  · rename_i hany
    unfold getUserByID
    dsimp only
    rw [find?_map_of_pred_eq (fun y => if y.ID == u.ID then u else y)
      (fun y => y.ID == u.ID) hpred st.users]
    cases hf : st.users.find? (fun y => y.ID == u.ID) with
    | none =>
      exfalso
      obtain ⟨y, hy, hyid⟩ := List.any_eq_true.mp hany
      have hsome : (st.users.find? (fun y => y.ID == u.ID)).isSome :=
        List.find?_isSome.mpr ⟨y, hy, hyid⟩
      rw [hf] at hsome
      simp at hsome
    | some y0 =>
      have hy0 : y0.ID = u.ID := by simpa using List.find?_some hf
      simp [hy0]
  · rename_i hany
    unfold getUserByID
    dsimp only
    rw [List.find?_append]
    have h1 : st.users.find? (fun y => y.ID == u.ID) = none := by
      rw [List.find?_eq_none]
      intro y hy hcon
      exact hany (List.any_eq_true.mpr ⟨y, hy, hcon⟩)
    rw [h1]
    simp

theorem getUserByID_saveUserRepo_other (st : Store) (u : User) (id : UUID)
    (hid : id ≠ u.ID) :
    getUserByID (saveUserRepo st u) id = getUserByID st id := by
  have hpred : ∀ y : User,
      (((if y.ID == u.ID then u else y) : User).ID == id) = (y.ID == id) := by
    intro y
    by_cases hy : y.ID = u.ID <;> simp [hy]
  unfold saveUserRepo
  split
  · unfold getUserByID
    dsimp only
    rw [find?_map_of_pred_eq (fun y => if y.ID == u.ID then u else y)
      (fun y => y.ID == id) hpred st.users]
    cases hf : st.users.find? (fun y => y.ID == id) with
    | none => simp [hf]
    | some y0 =>
      have hy0 : y0.ID = id := by simpa using List.find?_some hf
      have hy0ne : ¬ y0.ID = u.ID := by rw [hy0]; exact hid
      simp [hy0ne]
  · unfold getUserByID
    dsimp only
    rw [List.find?_append]
    have h2 : List.find? (fun y => y.ID == id) [u] = none := by
      simp [beq_eq_false_iff_ne]
      exact fun hcon => hid hcon.symm
    rw [h2]
    simp

theorem getUserByID_foldl_save_not_mem (name : String) :
    ∀ (ms : List User) (acc : Store) (id : UUID), id ∉ ms.map User.ID →
      getUserByID (ms.foldl (fun a m => saveUserRepo a { m with TeamName := name }) acc) id
        = getUserByID acc id
  | [], _, _, _ => rfl
  | m :: ms, acc, id, h => by
      have hsplit : id ≠ m.ID ∧ id ∉ ms.map User.ID := by
        simp only [List.map_cons, List.mem_cons, not_or] at h
        exact h
      rw [List.foldl_cons,
        getUserByID_foldl_save_not_mem name ms _ id hsplit.2]
      exact getUserByID_saveUserRepo_other _ _ id hsplit.1

theorem getUserByID_foldl_save_mem (name : String) :
    ∀ (ms : List User) (acc : Store) (id : UUID), id ∈ ms.map User.ID →
      ∃ u : User,
        getUserByID (ms.foldl (fun a m => saveUserRepo a { m with TeamName := name }) acc) id
          = .ok u ∧ u.TeamName = name
  | [], _, _, h => absurd h (by simp)
  | m :: ms, acc, id, h => by
      rw [List.foldl_cons]
      by_cases hmem : id ∈ ms.map User.ID
      · exact getUserByID_foldl_save_mem name ms _ id hmem
      · have hidm : id = m.ID := by
          simp only [List.map_cons, List.mem_cons] at h
          rcases h with h1 | h2
          · exact h1
          · exact absurd h2 hmem
        rw [getUserByID_foldl_save_not_mem name ms _ id hmem]
        refine ⟨{ m with TeamName := name }, ?_, rfl⟩
        rw [hidm]
        exact getUserByID_saveUserRepo_self acc { m with TeamName := name }

/-- C10: after a successful CreateTeam call, every member of the request is
persisted with its `team_name` set to the created team's name, whatever
team name (or none) the request carried for that member. -/
theorem created_members_reassigned_to_team {st : Store} {team t : Team} {st1 : Store}
    (h : CreateTeamWithMembers st team = (.ok t, st1)) :
    ∀ m ∈ team.Members, ∃ u : User,
      getUserByID st1 m.ID = .ok u ∧ u.TeamName = team.Name := by
  unfold CreateTeamWithMembers at h
  split at h
  · simp at h
  · split at h
    · simp at h
    · split at h
      · simp at h
      · split at h
        · simp at h
        · rename_i u2 stX htx
          simp only [Prod.mk.injEq, Except.ok.injEq] at h
          obtain ⟨-, h2⟩ := h
          subst h2
          unfold createTeamWithMembersTx at htx
          split at htx
          · cases htx
          · dsimp only at htx
            simp only [Prod.mk.injEq] at htx
            obtain ⟨-, htx2⟩ := htx
            subst htx2
            intro m hm
            exact getUserByID_foldl_save_mem team.Name team.Members _ m.ID
              (List.mem_map.mpr ⟨m, hm, rfl⟩)

/-- Witness for C10: creating team "T" with one member whose request record
carries team name "WRONG"; the persisted user has team name "T". -/
theorem created_members_reassigned_to_team_witness :
    CreateTeamWithMembers emptyStore ⟨"T", [⟨1, "bob", true, "WRONG"⟩]⟩
      = (.ok ⟨"T", [⟨1, "bob", true, "WRONG"⟩]⟩, ⟨["T"], [⟨1, "bob", true, "T"⟩], [], []⟩)
    ∧ ∀ m ∈ (⟨"T", [⟨1, "bob", true, "WRONG"⟩]⟩ : Team).Members, ∃ u : User,
        getUserByID (⟨["T"], [⟨1, "bob", true, "T"⟩], [], []⟩ : Store) m.ID = .ok u
          ∧ u.TeamName = "T" :=
  ⟨by rfl,
   @created_members_reassigned_to_team emptyStore ⟨"T", [⟨1, "bob", true, "WRONG"⟩]⟩
     ⟨"T", [⟨1, "bob", true, "WRONG"⟩]⟩ ⟨["T"], [⟨1, "bob", true, "T"⟩], [], []⟩ (by rfl)⟩

/-! ## Claim C7: selector result size and provenance -/

/-- C7: for every candidate list and requested count, `getRandomReviewers`
returns exactly `min count (length candidates)` ids, each the id of an input
candidate; on the empty list it returns an empty result (not an error), and
on a list shorter than the requested count it returns all of its members'
ids. -/
theorem selector_size_and_provenance {shuffle : List User → List User}
    (hsh : shuffleOK shuffle) (users : List User) (count : Nat) :
    ((getRandomReviewers shuffle users count).1.length = min count users.length)
    ∧ (∀ id ∈ (getRandomReviewers shuffle users count).1, ∃ u ∈ users, u.ID = id)
    ∧ (getRandomReviewers shuffle [] count = ([], []))
    ∧ (users.length ≤ count →
        ((getRandomReviewers shuffle users count).1).Perm (users.map User.ID)) :=
  ⟨getRandomReviewers_length hsh users count,
   fun _ h => getRandomReviewers_mem hsh h,
   getRandomReviewers_nil shuffle count,
   fun h => getRandomReviewers_all hsh h⟩

/-- Witness for C7 at a concrete input (identity shuffle, two candidates,
count 2). -/
theorem selector_size_and_provenance_witness :
    shuffleOK (fun l => l)
    ∧ (((getRandomReviewers (fun l => l) [⟨1, "a", true, "T"⟩, ⟨2, "b", true, "T"⟩] 2).1.length
          = min 2 ([⟨1, "a", true, "T"⟩, ⟨2, "b", true, "T"⟩] : List User).length)
        ∧ (∀ id ∈ (getRandomReviewers (fun l => l) [⟨1, "a", true, "T"⟩, ⟨2, "b", true, "T"⟩] 2).1,
            ∃ u ∈ ([⟨1, "a", true, "T"⟩, ⟨2, "b", true, "T"⟩] : List User), u.ID = id)
        ∧ (getRandomReviewers (fun l => l) [] 2 = ([], []))
        ∧ (([⟨1, "a", true, "T"⟩, ⟨2, "b", true, "T"⟩] : List User).length ≤ 2 →
            ((getRandomReviewers (fun l => l) [⟨1, "a", true, "T"⟩, ⟨2, "b", true, "T"⟩] 2).1).Perm
              (([⟨1, "a", true, "T"⟩, ⟨2, "b", true, "T"⟩] : List User).map User.ID))) :=
  ⟨fun l => List.Perm.refl l,
   selector_size_and_provenance (fun l => List.Perm.refl l)
     [⟨1, "a", true, "T"⟩, ⟨2, "b", true, "T"⟩] 2⟩

/-! ## Claim C8: the selector mutates the order of the caller's slice -/

/-- C8 counterexample: the in-place shuffle can leave the caller's slice in
a different order than it was passed in.  `List.reverse` is an admissible
shuffle outcome (it permutes its input), and on a two-element candidate
slice the caller's slice afterwards is reversed, not identical. -/
theorem selector_mutates_input_cex :
    ((getRandomReviewers List.reverse
        [⟨1, "a", true, "T"⟩, ⟨2, "b", true, "T"⟩] 2).2
      ≠ [⟨1, "a", true, "T"⟩, ⟨2, "b", true, "T"⟩])
    ∧ shuffleOK List.reverse :=
  ⟨by decide, fun l => List.reverse_perm l⟩

/-- C8 amended: the selector's only effect on the caller's candidate slice
is the in-place shuffle — afterwards the slice holds exactly the same
elements, as a permutation of the original order. -/
theorem selector_preserves_input_elements {shuffle : List User → List User}
    (hsh : shuffleOK shuffle) (users : List User) (count : Nat) :
    ((getRandomReviewers shuffle users count).2).Perm users :=
  getRandomReviewers_snd_perm hsh users count

/-- Witness for the amended C8 at a concrete input. -/
theorem selector_preserves_input_elements_witness :
    shuffleOK List.reverse
    ∧ ((getRandomReviewers List.reverse
          [⟨1, "a", true, "T"⟩, ⟨2, "b", true, "T"⟩] 2).2).Perm
        [⟨1, "a", true, "T"⟩, ⟨2, "b", true, "T"⟩] :=
  ⟨fun l => List.reverse_perm l,
   selector_preserves_input_elements (fun l => List.reverse_perm l) _ 2⟩

end Avito
